import Mathlib

/-!
Verification of the Postgres connector (`src/src/index.ts`, `src/src/queries.ts`).

The connector's pure core is embedded shallowly:

* the `reduce` in `PostgresPlugin.metadata` that folds column-catalog rows
  into `Table` entries (`foldStep`, `foldRows`);
* the `forEach` over constraint-catalog rows that attaches key descriptors
  (`keyOf`, `addKey`, `applyKeys`);
* the `ssl_config` computation and the precondition checks of
  `createConnection` (`ssl_config`, `configError`);
* the control flow of `execute`, `metadata` and `test` as trace-producing
  functions: driver calls (`client.connect`, `client.query`, `client.end`)
  are parameters giving their outcome, and the embedding records how many
  opens / statement executions / closes each path performs and which value
  or error message the call produces.
-/

set_option autoImplicit false

namespace Postgres

/-- One row of the column-catalog query (`TableQuery` in `queries.ts`): one row
per (table, column) pair, carrying `a.attname as name`, `t1.typname as
column_type`, `c.relname as table_name` and `n.nspname as schema_name`. -/
structure TableRow where
  name : String
  column_type : String
  table_name : String
  schema_name : String
  deriving Repr, DecidableEq

/-- One row of the constraint-catalog query (`KeysQuery` in `queries.ts`):
constraint name, one-character constraint kind code, owning table name. -/
structure KeyRow where
  constraint_name : String
  constraint_type : String
  self_table : String
  deriving Repr, DecidableEq

/-- The `Column` class from the shared package: displayed name plus type. -/
structure Column where
  name : String
  type : String
  deriving Repr, DecidableEq

/-- The two key kinds produced by `metadata`. -/
inductive KeyType where
  | primary_key
  | foreign_key
  deriving Repr, DecidableEq

/-- The key descriptor pushed onto `table.keys`. -/
structure Key where
  name : String
  type : KeyType
  deriving Repr, DecidableEq

/-- `TableType.TABLE` is the only table kind the connector produces. -/
inductive TableType where
  | TABLE
  deriving Repr, DecidableEq

/-- The `Table` entity accumulated by `metadata`. -/
structure Table where
  name : String
  type : TableType
  columns : List Column
  keys : List Key
  deriving Repr, DecidableEq

/-- `String.prototype.toLowerCase`, modelled character-wise over the string's
character list (each character lowered by `Char.toLower`), so that it
evaluates by plain reduction. -/
def toLowerCase (s : String) : String :=
  String.mk (s.data.map Char.toLower)

/-- The check `!(attr.name === attr.name.toLowerCase())`. -/
def isColumnNameCased (name : String) : Bool :=
  !(name == toLowerCase name)

/-- The displayed name chosen for a column appended to an already-existing
table entry: quoted when the raw name is not all-lowercase, raw otherwise. -/
def storedName (raw : String) : String :=
  if isColumnNameCased raw then "\"" ++ raw ++ "\"" else raw

/-- The column object built in the branch of the fold where the table entry
already exists: `new Column(isColumnNameCased ? quoted : raw, column_type)`. -/
def laterColumn (attr : TableRow) : Column :=
  { name := storedName attr.name, type := attr.column_type }

/-- `Array.prototype.find` followed by in-place mutation of the found element:
rewrite the first element satisfying `p` with `f`, leave the list unchanged
when no element matches. -/
def updateFirst {α : Type} (p : α → Bool) (f : α → α) : List α → List α
  | [] => []
  | x :: xs => if p x then f x :: xs else x :: updateFirst p f xs

/-- One step of the `tableResult.rows.reduce` in `PostgresPlugin.metadata`:
look the table entry up by `table_name`; when found, append a column built
with the casing rule; when absent, append a fresh table whose first column
stores the raw name (no casing rule on this branch). -/
def foldStep (acc : List Table) (attr : TableRow) : List Table :=
  match acc.find? (fun o => o.name == attr.table_name) with
  | some _ =>
    updateFirst (fun o => o.name == attr.table_name)
      (fun entity => { entity with columns := entity.columns ++ [laterColumn attr] }) acc
  | none =>
    acc ++ [{ name := attr.table_name, type := TableType.TABLE,
              columns := [{ name := attr.name, type := attr.column_type }],
              keys := [] }]

/-- The whole `reduce(..., [])` over the column-catalog rows. -/
def foldRows (rows : List TableRow) : List Table :=
  rows.foldl foldStep []

/-- The key-descriptor literal pushed in `metadata`: name is the constraint
name; type is `primary_key` when the kind code is `p`, else `foreign_key`. -/
def keyOf (key : KeyRow) : Key :=
  { name := key.constraint_name
    type := if key.constraint_type == "p" then KeyType.primary_key else KeyType.foreign_key }

/-- The body of `keysResult.rows.forEach`: find the table entry whose name is
the row's `self_table` and push the key descriptor onto it; silently keep the
entities unchanged when no table matches. -/
def addKey (entities : List Table) (key : KeyRow) : List Table :=
  match entities.find? (fun e => e.name == key.self_table) with
  | some _ =>
    updateFirst (fun e => e.name == key.self_table)
      (fun table => { table with keys := table.keys ++ [keyOf key] }) entities
  | none => entities

/-- The whole `forEach` over the constraint-catalog rows. -/
def applyKeys (entities : List Table) (keys : List KeyRow) : List Table :=
  keys.foldl addKey entities

/-- The pure core of `PostgresPlugin.metadata`: fold the column rows, then
attach the key rows. -/
def metadataTables (tableRows : List TableRow) (keyRows : List KeyRow) : List Table :=
  applyKeys (foldRows tableRows) keyRows

/-- Models lodash `isEmpty` applied to `actionConfiguration.body` (a possibly
missing string): `undefined`/`null` are empty, and a string is empty exactly
when its length is zero — a whitespace-only string has positive length and is
therefore NOT empty for lodash. -/
def isEmpty : Option String → Bool
  | none => true
  | some s => s.length == 0

/-- Observable effects of one `execute` call (after a successful
`createConnection`): number of connection opens, number of statement-executor
invocations, number of connection destroys, and the produced output or thrown
error message. -/
structure ExecTrace (α : Type) where
  opens : Nat
  queryCalls : Nat
  closes : Nat
  result : Except String (List α)

/-- Shallow embedding of `PostgresPlugin.execute` (src/src/index.ts) for a
call where `createConnection` succeeds. `query` is `actionConfiguration.body`;
`queryOutcome` is what `client.query` would produce if invoked; `normalize`
stands for the imported `normalizeTableColumnNames`. The control flow mirrors
the source: the connection is opened first, then the `isEmpty` early return —
which sits BEFORE the try/finally, so that path performs no destroy — then
the try (run the query) / catch (rethrow with contextual message) / finally
(destroy the connection). -/
def execute {α : Type} (query : Option String) (queryOutcome : Except String (List α))
    (normalize : List α → List α) : ExecTrace α :=
  if isEmpty query then
    { opens := 1, queryCalls := 0, closes := 0, result := Except.ok [] }
  else
    match queryOutcome with
    | Except.ok rows =>
      { opens := 1, queryCalls := 1, closes := 1, result := Except.ok (normalize rows) }
    | Except.error m =>
      { opens := 1, queryCalls := 1, closes := 1,
        result := Except.error ("Postgres query failed, " ++ m) }

/-- The `endpoint` part of the datasource configuration. -/
structure Endpoint where
  host : String
  port : Nat
  deriving Repr, DecidableEq

/-- `auth.custom.databaseName` with its optional `value`. -/
structure DatabaseName where
  value : Option String
  deriving Repr, DecidableEq

/-- `auth.custom`, carrying the optional database name. -/
structure CustomAuth where
  databaseName : Option DatabaseName
  deriving Repr, DecidableEq

/-- The `authentication` part of the datasource configuration. -/
structure Auth where
  username : String
  password : String
  custom : Option CustomAuth
  deriving Repr, DecidableEq

/-- The `connection` part of the datasource configuration (TLS options). -/
structure ConnectionOpts where
  useSsl : Bool
  useSelfSignedSsl : Bool
  ca : Option String
  key : Option String
  cert : Option String
  deriving Repr, DecidableEq

/-- The datasource configuration, with every layer the source tests with
optional chaining made optional. -/
structure DatasourceConfiguration where
  endpoint : Option Endpoint
  authentication : Option Auth
  connection : Option ConnectionOpts
  deriving Repr, DecidableEq

/-- The `ssl` option object passed to the `pg` `Client`. Certificate fields
are `Option (Option String)`: `none` means the field was never assigned on
the object, `some v` means it was assigned the configured value `v` (itself
possibly missing). -/
structure SslConfig where
  rejectUnauthorized : Bool
  ca : Option (Option String)
  key : Option (Option String)
  cert : Option (Option String)
  deriving Repr, DecidableEq

/-- The `ssl_config` computation in `createConnection`: stays `undefined`
unless `connection?.useSsl`; when TLS is on it starts as
`\x7b rejectUnauthorized: false \x7d` and gains `ca`/`key`/`cert` exactly
when `useSelfSignedSsl` is also set. -/
def ssl_config (connection : Option ConnectionOpts) : Option SslConfig :=
  match connection with
  | none => none
  | some c =>
    if c.useSsl then
      some { rejectUnauthorized := false
             ca := if c.useSelfSignedSsl then some c.ca else none
             key := if c.useSelfSignedSsl then some c.key else none
             cert := if c.useSelfSignedSsl then some c.cert else none }
    else none

/-- JS truthiness of `auth.custom?.databaseName?.value`: missing layers and
the empty string are falsy. -/
def truthyDatabaseName (auth : Auth) : Bool :=
  match auth.custom with
  | none => false
  | some cu =>
    match cu.databaseName with
    | none => false
    | some d =>
      match d.value with
      | none => false
      | some v => !(v == "")

/-- The precondition checks at the top of `createConnection`, in source
order; yields the `IntegrationError` message of the first failing check, or
`none` for a valid configuration. -/
def configError (cfg : Option DatasourceConfiguration) : Option String :=
  match cfg with
  | none => some "Datasource not found for Postgres step"
  | some c =>
    match c.endpoint with
    | none => some "Endpoint not specified for Postgres step"
    | some _ =>
      match c.authentication with
      | none => some "Authentication not specified for Postgres step"
      | some auth =>
        if truthyDatabaseName auth then none
        else some "Database not specified for Postgres step"

/-- Observable effects of one `test` call. -/
structure TestTrace where
  opens : Nat
  closes : Nat
  result : Except String Unit

/-- Shallow embedding of `PostgresPlugin.test`: `createConnection` (the
precondition checks, then the driver `connect` with outcome `connectOutcome`),
then the liveness statement `SELECT NOW()` with outcome `queryOutcome`; every
failure is rethrown with the message prefixed by
`Test Postgres connection failed, `, and the `finally` block destroys the
connection exactly when the `client` local was assigned. -/
def test (cfg : Option DatasourceConfiguration)
    (connectOutcome : Except String Unit) (queryOutcome : Except String Unit) : TestTrace :=
  match configError cfg with
  | some m =>
    { opens := 0, closes := 0, result := Except.error ("Test Postgres connection failed, " ++ m) }
  | none =>
    match connectOutcome with
    | Except.error m =>
      { opens := 0, closes := 0, result := Except.error ("Test Postgres connection failed, " ++ m) }
    | Except.ok _ =>
      match queryOutcome with
      | Except.ok _ => { opens := 1, closes := 1, result := Except.ok () }
      | Except.error m =>
        { opens := 1, closes := 1, result := Except.error ("Test Postgres connection failed, " ++ m) }

/-- Observable effects of one `metadata` call past a successful connection. -/
structure MetaTrace where
  closes : Nat
  result : Except String (List Table)

/-- Shallow embedding of the body of `PostgresPlugin.metadata` after a
successful `createConnection`: run the column-catalog query, fold its rows,
run the constraint-catalog query, attach the keys; any error raised inside
the try block is rethrown with the message prefixed by
`Failed to connect to Postgres, `; the `finally` block destroys the
connection on every path. -/
def metadata (tableOutcome : Except String (List TableRow))
    (keysOutcome : Except String (List KeyRow)) : MetaTrace :=
  match tableOutcome with
  | Except.error m =>
    { closes := 1, result := Except.error ("Failed to connect to Postgres, " ++ m) }
  | Except.ok rows =>
    match keysOutcome with
    | Except.error m =>
      { closes := 1, result := Except.error ("Failed to connect to Postgres, " ++ m) }
    | Except.ok keyRows =>
      { closes := 1, result := Except.ok (metadataTables rows keyRows) }

/-- Specification-side description: the table names of a row stream in
first-appearance order. -/
def seenStep (ns : List String) (r : TableRow) : List String :=
  if ns.contains r.table_name then ns else ns ++ [r.table_name]

/-- Table names in first-appearance order of the row stream. -/
def firstSeen (rows : List TableRow) : List String :=
  rows.foldl seenStep []

/-- Specification-side description of the stored column names for one table's
row block: the first row keeps its raw name, later rows go through the casing
rule. -/
def storedNames : List TableRow → List String
  | [] => []
  | r :: rs => r.name :: rs.map (fun x => storedName x.name)

/-- Specification-side description of the column list the fold produces for
the table named `n`: the rows of that table in stream order, the first one
stored raw, the later ones through the casing rule. -/
def columnsFor (n : String) (rows : List TableRow) : List Column :=
  match rows.filter (fun r => r.table_name == n) with
  | [] => []
  | r :: rs => { name := r.name, type := r.column_type } :: rs.map laterColumn

/-- Concrete table used by witnesses. -/
def demoTable : Table :=
  { name := "orders", type := TableType.TABLE,
    columns := [{ name := "id", type := "int4" }], keys := [] }

/-- Concrete primary-key constraint row used by witnesses. -/
def kp : KeyRow :=
  { constraint_name := "orders_pkey", constraint_type := "p", self_table := "orders" }

/-- Concrete foreign-key constraint row used by witnesses. -/
def kf : KeyRow :=
  { constraint_name := "orders_customer_fkey", constraint_type := "f", self_table := "orders" }

/-- Concrete constraint row whose table is absent, used by witnesses. -/
def korphan : KeyRow :=
  { constraint_name := "ghost_pkey", constraint_type := "p", self_table := "ghost" }

/-- Concrete TLS-off connection options used by witnesses. -/
def coptsOff : ConnectionOpts :=
  { useSsl := false, useSelfSignedSsl := false, ca := none, key := none, cert := none }

/-- Concrete valid datasource configuration used by witnesses. -/
def demoConfig : DatasourceConfiguration :=
  { endpoint := some { host := "localhost", port := 5432 }
    authentication := some
      { username := "u", password := "pw",
        custom := some { databaseName := some { value := some "db" } } }
    connection := none }

/-! ### Helper lemmas on `updateFirst`, `find?`, `addKey`, `applyKeys` -/

theorem updateFirst_append {α : Type} (p : α → Bool) (f : α → α) (l₁ l₂ : List α) (x : α)
    (h₁ : ∀ u ∈ l₁, p u = false) (hx : p x = true) :
    updateFirst p f (l₁ ++ x :: l₂) = l₁ ++ f x :: l₂ := by
  induction l₁ with
  | nil => simp [updateFirst, hx]
  | cons a l₁ ih =>
    have ha : p a = false := h₁ a (by simp)
    simp [updateFirst, ha, ih (fun u hu => h₁ u (by simp [hu]))]

theorem find?_append_first {α : Type} (p : α → Bool) (l₁ l₂ : List α) (x : α)
    (h₁ : ∀ u ∈ l₁, p u = false) (hx : p x = true) :
    (l₁ ++ x :: l₂).find? p = some x := by
  induction l₁ with
  | nil => simp [List.find?_cons, hx]
  | cons a l₁ ih =>
    have ha : p a = false := h₁ a (by simp)
    simp [List.find?_cons, ha, ih (fun u hu => h₁ u (by simp [hu]))]

/-- A constraint row whose table is present: the first matching table gets the
key descriptor appended, every other entity is untouched. -/
theorem addKey_found (l₁ l₂ : List Table) (t : Table) (k : KeyRow)
    (h₁ : ∀ u ∈ l₁, u.name ≠ k.self_table) (ht : t.name = k.self_table) :
    addKey (l₁ ++ t :: l₂) k = l₁ ++ { t with keys := t.keys ++ [keyOf k] } :: l₂ := by
  have hfind : (l₁ ++ t :: l₂).find? (fun e => e.name == k.self_table) = some t :=
    find?_append_first _ _ _ _ (fun u hu => by simp [h₁ u hu]) (by simp [ht])
  rw [addKey, hfind]
  exact updateFirst_append _ _ _ _ _ (fun u hu => by simp [h₁ u hu]) (by simp [ht])

/-- A constraint row whose table is absent leaves the entities unchanged. -/
theorem addKey_absent (entities : List Table) (k : KeyRow)
    (h : ∀ u ∈ entities, u.name ≠ k.self_table) :
    addKey entities k = entities := by
  have hfind : entities.find? (fun e => e.name == k.self_table) = none := by
    rw [List.find?_eq_none]
    intro x hx
    simp [h x hx]
  rw [addKey, hfind]

/-- A block of constraint rows all owned by the table `t` is appended to `t`'s
key list in scan order. -/
theorem applyKeys_found (ks : List KeyRow) (l₁ l₂ : List Table) (t : Table)
    (h₁ : ∀ u ∈ l₁, u.name ≠ t.name) (hks : ∀ x ∈ ks, x.self_table = t.name) :
    applyKeys (l₁ ++ t :: l₂) ks = l₁ ++ { t with keys := t.keys ++ ks.map keyOf } :: l₂ := by
  induction ks generalizing t with
  | nil => simp [applyKeys]
  | cons x ks ih =>
    have hx : x.self_table = t.name := hks x (by simp)
    have step : addKey (l₁ ++ t :: l₂) x = l₁ ++ { t with keys := t.keys ++ [keyOf x] } :: l₂ :=
      addKey_found l₁ l₂ t x (fun u hu => hx ▸ h₁ u hu) hx.symm
    have tail := ih { t with keys := t.keys ++ [keyOf x] }
      (fun u hu => h₁ u hu) (fun y hy => hks y (by simp [hy]))
    calc applyKeys (l₁ ++ t :: l₂) (x :: ks)
        = applyKeys (l₁ ++ { t with keys := t.keys ++ [keyOf x] } :: l₂) ks := by
          simp only [applyKeys, List.foldl_cons, step]
      _ = l₁ ++ { t with keys := t.keys ++ (x :: ks).map keyOf } :: l₂ := by
          rw [tail]; simp

/-! ### Characterization of the column fold -/

/-- Boolean `contains` on a string list agrees with membership. -/
theorem contains_eq_true_iff (ns : List String) (a : String) :
    ns.contains a = true ↔ a ∈ ns :=
  List.elem_iff

/-- `updateFirst` with a name-preserving update keeps the name list. -/
theorem map_name_updateFirst (p : Table → Bool) (f : Table → Table)
    (hf : ∀ x, (f x).name = x.name) (l : List Table) :
    (updateFirst p f l).map Table.name = l.map Table.name := by
  induction l with
  | nil => rfl
  | cons a l ih =>
    by_cases hp : p a = true
    · simp [updateFirst, hp, hf]
    · simp [updateFirst, hp, ih]

/-- One fold step acts on the name list as one `seenStep`. -/
theorem foldStep_names (acc : List Table) (r : TableRow) :
    (foldStep acc r).map Table.name = seenStep (acc.map Table.name) r := by
  cases hfind : acc.find? (fun o => o.name == r.table_name) with
  | some t =>
    have htmem : t ∈ acc := List.mem_of_find?_eq_some hfind
    have htname : t.name = r.table_name := by simpa using List.find?_some hfind
    have hc : (acc.map Table.name).contains r.table_name = true :=
      (contains_eq_true_iff _ _).mpr (List.mem_map.mpr ⟨t, htmem, htname⟩)
    simp only [foldStep, hfind]
    rw [map_name_updateFirst (fun o => o.name == r.table_name)
      (fun entity => { entity with columns := entity.columns ++ [laterColumn r] })
      (fun x => rfl) acc]
    simp only [seenStep]
    rw [if_pos hc]
  | none =>
    have hall : ∀ x ∈ acc, ¬(x.name == r.table_name) = true :=
      List.find?_eq_none.mp hfind
    have hc : ¬((acc.map Table.name).contains r.table_name = true) := by
      intro hcc
      obtain ⟨u, hu, hun⟩ := List.mem_map.mp ((contains_eq_true_iff _ _).mp hcc)
      exact hall u hu (by simp [hun])
    simp only [foldStep, hfind]
    simp only [seenStep]
    rw [if_neg hc, List.map_append]
    rfl

/-- The fold acts on the name list as the first-appearance accumulation. -/
theorem foldl_names (rows : List TableRow) :
    ∀ acc : List Table,
      (rows.foldl foldStep acc).map Table.name = rows.foldl seenStep (acc.map Table.name) := by
  induction rows with
  | nil => intro acc; rfl
  | cons r rs ih =>
    intro acc
    simp only [List.foldl_cons]
    rw [ih (foldStep acc r), foldStep_names]

/-- Membership in the first-appearance accumulation. -/
theorem mem_foldl_seenStep (rows : List TableRow) (a : String) :
    ∀ ns : List String,
      (a ∈ rows.foldl seenStep ns ↔ a ∈ ns ∨ a ∈ rows.map TableRow.table_name) := by
  induction rows with
  | nil => intro ns; simp
  | cons r rs ih =>
    intro ns
    simp only [List.foldl_cons]
    rw [ih (seenStep ns r)]
    by_cases hc : ns.contains r.table_name = true
    · have hmem : r.table_name ∈ ns := (contains_eq_true_iff _ _).mp hc
      simp only [seenStep]
      rw [if_pos hc]
      simp only [List.map_cons, List.mem_cons]
      constructor
      · rintro (h | h)
        · exact Or.inl h
        · exact Or.inr (Or.inr h)
      · rintro (h | h | h)
        · exact Or.inl h
        · exact Or.inl (h ▸ hmem)
        · exact Or.inr h
    · simp only [seenStep]
      rw [if_neg hc]
      simp only [List.map_cons, List.mem_cons, List.mem_append, List.mem_singleton]
      tauto

/-- The first-appearance accumulation keeps the name list duplicate-free. -/
theorem nodup_foldl_seenStep (rows : List TableRow) :
    ∀ ns : List String, ns.Nodup → (rows.foldl seenStep ns).Nodup := by
  induction rows with
  | nil => intro ns h; exact h
  | cons r rs ih =>
    intro ns h
    simp only [List.foldl_cons]
    apply ih
    by_cases hc : ns.contains r.table_name = true
    · simp only [seenStep]
      rw [if_pos hc]
      exact h
    · have hmem : r.table_name ∉ ns := fun hm => hc ((contains_eq_true_iff _ _).mpr hm)
      simp only [seenStep]
      rw [if_neg hc, List.nodup_append]
      refine ⟨h, List.nodup_singleton _, ?_⟩
      intro x hx hxm
      rw [List.mem_singleton] at hxm
      exact hmem (hxm ▸ hx)

/-- K distinct table names yield exactly K folded tables. -/
theorem length_foldRows (rows : List TableRow) :
    (foldRows rows).length = (rows.map TableRow.table_name).toFinset.card := by
  have h1 : (foldRows rows).map Table.name = firstSeen rows := foldl_names rows []
  have hn : (firstSeen rows).Nodup := nodup_foldl_seenStep rows [] (by simp)
  have hlen : (foldRows rows).length = (firstSeen rows).length := by
    rw [← h1, List.length_map]
  have hset : (firstSeen rows).toFinset = (rows.map TableRow.table_name).toFinset := by
    ext a
    simp only [List.mem_toFinset]
    rw [firstSeen, mem_foldl_seenStep rows a []]
    simp
  calc (foldRows rows).length = (firstSeen rows).length := hlen
    _ = (firstSeen rows).toFinset.card := (List.toFinset_card_of_nodup hn).symm
    _ = (rows.map TableRow.table_name).toFinset.card := by rw [hset]

/-- Members of `updateFirst` on a duplicate-free name list: either an untouched
non-matching element, or the update applied to a matching element. -/
theorem mem_updateFirst_nodup (acc : List Table) (n : String) (g : Table → Table)
    (hnd : (acc.map Table.name).Nodup) (t₀ : Table)
    (h : t₀ ∈ updateFirst (fun o => o.name == n) g acc) :
    (t₀ ∈ acc ∧ t₀.name ≠ n) ∨ (∃ u ∈ acc, u.name = n ∧ t₀ = g u) := by
  induction acc with
  | nil => simp [updateFirst] at h
  | cons a acc ih =>
    rw [List.map_cons, List.nodup_cons] at hnd
    by_cases hp : (a.name == n) = true
    · have han : a.name = n := by simpa using hp
      simp only [updateFirst] at h
      rw [if_pos hp] at h
      rw [List.mem_cons] at h
      rcases h with h | h
      · exact Or.inr ⟨a, List.mem_cons_self a acc, han, h⟩
      · have hnin : n ∉ acc.map Table.name := han ▸ hnd.1
        refine Or.inl ⟨List.mem_cons_of_mem a h, fun he => ?_⟩
        exact hnin (he ▸ List.mem_map_of_mem Table.name h)
    · simp only [updateFirst] at h
      rw [if_neg hp] at h
      rw [List.mem_cons] at h
      rcases h with h | h
      · refine Or.inl ⟨h ▸ List.mem_cons_self a acc, ?_⟩
        subst h
        simpa using hp
      · rcases ih hnd.2 h with ⟨hmem, hne⟩ | ⟨u, hu, hun, ht⟩
        · exact Or.inl ⟨List.mem_cons_of_mem a hmem, hne⟩
        · exact Or.inr ⟨u, List.mem_cons_of_mem a hu, hun, ht⟩

/-- Dropping a head row of another table leaves `columnsFor` unchanged. -/
theorem columnsFor_cons_ne (n : String) (r : TableRow) (rs : List TableRow)
    (h : (r.table_name == n) = false) :
    columnsFor n (r :: rs) = columnsFor n rs := by
  simp only [columnsFor, List.filter_cons, h]
  simp

/-- A head row of the table itself becomes the head stored column. -/
theorem columnsFor_cons_eq (n : String) (r : TableRow) (rs : List TableRow)
    (h : (r.table_name == n) = true) :
    columnsFor n (r :: rs)
      = Column.mk r.name r.column_type
          :: (rs.filter (fun x => x.table_name == n)).map laterColumn := by
  simp only [columnsFor, List.filter_cons, h]
  simp

/-- Full characterization of the columns accumulated by the fold, generalized
over a starting accumulator with duplicate-free names: every table of the
result either extends a starting table by the (casing-ruled) columns of its
rows, or is a fresh table whose columns are exactly `columnsFor` its name. -/
theorem columns_foldl (rows : List TableRow) :
    ∀ acc : List Table, (acc.map Table.name).Nodup →
      ∀ t ∈ rows.foldl foldStep acc,
        (∃ t₀ ∈ acc, t₀.name = t.name ∧
           t.columns = t₀.columns
             ++ (rows.filter (fun r => r.table_name == t.name)).map laterColumn)
        ∨ (t.name ∉ acc.map Table.name ∧ t.columns = columnsFor t.name rows) := by
  induction rows with
  | nil =>
    intro acc hnd t ht
    exact Or.inl ⟨t, ht, rfl, by simp⟩
  | cons r rs ih =>
    intro acc hnd t ht
    simp only [List.foldl_cons] at ht
    have hnd' : ((foldStep acc r).map Table.name).Nodup := by
      rw [foldStep_names]
      by_cases hcon : (acc.map Table.name).contains r.table_name = true
      · simp only [seenStep]
        rw [if_pos hcon]
        exact hnd
      · have hmem : r.table_name ∉ acc.map Table.name :=
          fun hm => hcon ((contains_eq_true_iff _ _).mpr hm)
        simp only [seenStep]
        rw [if_neg hcon, List.nodup_append]
        refine ⟨hnd, List.nodup_singleton _, ?_⟩
        intro x hx hxm
        rw [List.mem_singleton] at hxm
        exact hmem (hxm ▸ hx)
    rcases ih (foldStep acc r) hnd' t ht with ⟨t₀, ht₀mem, hname, hcols⟩ | ⟨hnotmem, hcols⟩
    · -- `t` extends a table `t₀` present after the first step
      cases hfind : acc.find? (fun o => o.name == r.table_name) with
      | some u =>
        simp only [foldStep, hfind] at ht₀mem
        rcases mem_updateFirst_nodup acc r.table_name
            (fun entity => { entity with columns := entity.columns ++ [laterColumn r] })
            hnd t₀ ht₀mem with
          ⟨hmem, hne⟩ | ⟨u', hu', hu'name, ht₀⟩
        · refine Or.inl ⟨t₀, hmem, hname, ?_⟩
          have hdrop : (r.table_name == t.name) = false := by
            simp only [beq_eq_false_iff_ne, ne_eq]
            intro he
            exact hne (by rw [hname, he])
          have hfil : (r :: rs).filter (fun x => x.table_name == t.name)
              = rs.filter (fun x => x.table_name == t.name) := by
            simp [List.filter_cons, hdrop]
          rw [hcols, hfil]
        · have ht₀' : t₀ = { u' with columns := u'.columns ++ [laterColumn r] } := ht₀
          have hu'n : u'.name = t.name := by rw [← hname, ht₀']
          have hn : r.table_name = t.name := by rw [← hu'name, hu'n]
          have hfil : (r :: rs).filter (fun x => x.table_name == t.name)
              = r :: rs.filter (fun x => x.table_name == t.name) := by
            simp [List.filter_cons, hn]
          refine Or.inl ⟨u', hu', hu'n, ?_⟩
          rw [hcols, ht₀', hfil]
          simp
      | none =>
        have hall : ∀ x ∈ acc, ¬(x.name == r.table_name) = true :=
          List.find?_eq_none.mp hfind
        simp only [foldStep, hfind] at ht₀mem
        rcases List.mem_append.mp ht₀mem with hmem | hnew
        · refine Or.inl ⟨t₀, hmem, hname, ?_⟩
          have hdrop : (r.table_name == t.name) = false := by
            simp only [beq_eq_false_iff_ne, ne_eq]
            intro he
            exact hall t₀ hmem (by simp [hname, he])
          have hfil : (r :: rs).filter (fun x => x.table_name == t.name)
              = rs.filter (fun x => x.table_name == t.name) := by
            simp [List.filter_cons, hdrop]
          rw [hcols, hfil]
        · have ht₀eq : t₀ = Table.mk r.table_name TableType.TABLE
              [Column.mk r.name r.column_type] [] := by
            simpa using hnew
          have hn : t.name = r.table_name := by rw [← hname, ht₀eq]
          have hnotacc : t.name ∉ acc.map Table.name := by
            rw [hn]
            intro hcm
            obtain ⟨x, hx, hxn⟩ := List.mem_map.mp hcm
            exact hall x hx (by simp [hxn])
          refine Or.inr ⟨hnotacc, ?_⟩
          rw [hcols, ht₀eq, columnsFor_cons_eq t.name r rs (by simp [hn])]
          simp
    · -- `t` is created strictly after the first step
      rw [foldStep_names] at hnotmem
      have hmem_seen : ∀ a : String, a ∈ seenStep (acc.map Table.name) r ↔
          a ∈ acc.map Table.name ∨ a = r.table_name := by
        intro a
        simp only [seenStep]
        by_cases hcon : (acc.map Table.name).contains r.table_name = true
        · rw [if_pos hcon]
          have hrm : r.table_name ∈ acc.map Table.name := (contains_eq_true_iff _ _).mp hcon
          constructor
          · exact fun h => Or.inl h
          · rintro (h | h)
            · exact h
            · exact h ▸ hrm
        · rw [if_neg hcon]
          simp [List.mem_append]
      have hnotacc : t.name ∉ acc.map Table.name := fun hcm =>
        hnotmem ((hmem_seen t.name).mpr (Or.inl hcm))
      have hner : t.name ≠ r.table_name := fun he =>
        hnotmem ((hmem_seen t.name).mpr (Or.inr he))
      refine Or.inr ⟨hnotacc, ?_⟩
      rw [hcols, columnsFor_cons_ne t.name r rs (by simp only [beq_eq_false_iff_ne, ne_eq]; exact fun he => hner he.symm)]

/-- Every folded table's column list is exactly `columnsFor` its name. -/
theorem foldRows_columns (rows : List TableRow) (t : Table) (h : t ∈ foldRows rows) :
    t.columns = columnsFor t.name rows := by
  rcases columns_foldl rows [] (by simp) t h with ⟨t₀, ht₀, _, _⟩ | ⟨_, hc⟩
  · simp at ht₀
  · exact hc

/-! ### Claims C1, C3, C5, C6, C7, C8, C9 -/

/-- C1, counterexample: a whitespace-only query is NOT lodash-empty, so it is
passed to the statement executor (one executor invocation, refuting "never
run"); and on the genuinely empty query the early return precedes the
try/finally, so the connection is never closed there (0 closes), unlike the
normal path (1 close) — refuting "closing exactly as on the normal path". -/
theorem claim_C1_counterexample :
    isEmpty (some " ") = false
    ∧ (execute (some " ") (Except.ok ([] : List Nat)) id).queryCalls = 1
    ∧ (execute (some "") (Except.ok ([] : List Nat)) id).closes = 0
    ∧ (execute (some "SELECT NOW()") (Except.ok ([] : List Nat)) id).closes = 1 :=
  ⟨rfl, rfl, rfl, rfl⟩

/-- C1, amended: for every lodash-empty SQL input (undefined or zero-length —
whitespace-only input is not empty), `execute` returns an empty result set
without invoking the statement executor, after opening the connection, but the
early return sits before the try/finally so the connection is NOT closed on
that path; every non-empty input (including whitespace-only) invokes the
executor exactly once. -/
theorem claim_C1 {α : Type} (query : Option String) (queryOutcome : Except String (List α))
    (normalize : List α → List α) (h : isEmpty query = true) :
    (execute query queryOutcome normalize).result = Except.ok []
    ∧ (execute query queryOutcome normalize).queryCalls = 0
    ∧ (execute query queryOutcome normalize).opens = 1
    ∧ (execute query queryOutcome normalize).closes = 0
    ∧ (∀ s : String, isEmpty (some s) = false →
        (execute (some s) queryOutcome normalize).queryCalls = 1) := by
  refine ⟨by simp [execute, h], by simp [execute, h], by simp [execute, h],
    by simp [execute, h], ?_⟩
  intro s hs
  cases queryOutcome <;> simp [execute, hs]

/-- C1, witness at the concrete empty input. -/
theorem claim_C1_witness :
    (execute (none : Option String) (Except.ok ([] : List Nat)) id).result = Except.ok []
    ∧ (execute (none : Option String) (Except.ok ([] : List Nat)) id).queryCalls = 0
    ∧ (execute (none : Option String) (Except.ok ([] : List Nat)) id).opens = 1
    ∧ (execute (none : Option String) (Except.ok ([] : List Nat)) id).closes = 0 := by
  have h := claim_C1 (α := Nat) none (Except.ok []) id rfl
  exact ⟨h.1, h.2.1, h.2.2.1, h.2.2.2.1⟩

/-- C3: when the statement executor fails with message `m` on a non-empty
query, `execute` rethrows an error carrying the original driver message under
the contextual prefix, and the connection is still destroyed exactly once. -/
theorem claim_C3 {α : Type} (query : Option String) (m : String) (normalize : List α → List α)
    (h : isEmpty query = false) :
    (execute query (Except.error m) normalize).result
      = Except.error ("Postgres query failed, " ++ m)
    ∧ (execute query (Except.error m) normalize).closes = 1
    ∧ (execute query (Except.error m) normalize).queryCalls = 1
    ∧ (execute query (Except.error m) normalize).opens = 1 := by
  simp [execute, h]

/-- C3, witness at a concrete failing query. -/
theorem claim_C3_witness :
    (execute (some "SELECT * FROM t") (Except.error "syntax error") (id : List Nat → List Nat)).result
      = Except.error ("Postgres query failed, " ++ "syntax error")
    ∧ (execute (some "SELECT * FROM t") (Except.error "syntax error") (id : List Nat → List Nat)).closes = 1
    ∧ (execute (some "SELECT * FROM t") (Except.error "syntax error") (id : List Nat → List Nat)).queryCalls = 1
    ∧ (execute (some "SELECT * FROM t") (Except.error "syntax error") (id : List Nat → List Nat)).opens = 1 :=
  claim_C3 (some "SELECT * FROM t") "syntax error" id rfl

/-- C5: a constraint row whose owning table is present gets a key descriptor
appended to that table; its name is the row's constraint name, and its type is
`primary_key` exactly when the one-character kind code is `p`, otherwise
`foreign_key`. -/
theorem claim_C5 (l₁ l₂ : List Table) (t : Table) (k : KeyRow)
    (h₁ : ∀ u ∈ l₁, u.name ≠ k.self_table) (ht : t.name = k.self_table) :
    addKey (l₁ ++ t :: l₂) k = l₁ ++ { t with keys := t.keys ++ [keyOf k] } :: l₂
    ∧ (keyOf k).name = k.constraint_name
    ∧ ((keyOf k).type = KeyType.primary_key ↔ k.constraint_type = "p")
    ∧ (k.constraint_type = "p" → (keyOf k).type = KeyType.primary_key)
    ∧ (k.constraint_type ≠ "p" → (keyOf k).type = KeyType.foreign_key) := by
  refine ⟨addKey_found l₁ l₂ t k h₁ ht, rfl, ?_, ?_, ?_⟩
  · constructor
    · intro hty
      by_contra hne
      simp [keyOf, hne] at hty
    · intro hp
      simp [keyOf, hp]
  · intro hp; simp [keyOf, hp]
  · intro hp; simp [keyOf, hp]

/-- C5, witness: a `p` row and an `f` row on a concrete table. -/
theorem claim_C5_witness :
    addKey ([] ++ demoTable :: []) kp
      = [] ++ { demoTable with keys := demoTable.keys ++ [keyOf kp] } :: []
    ∧ (keyOf kp).type = KeyType.primary_key
    ∧ (keyOf kf).type = KeyType.foreign_key :=
  ⟨(claim_C5 [] [] demoTable kp (by simp) rfl).1,
   (claim_C5 [] [] demoTable kp (by simp) rfl).2.2.2.1 rfl,
   (claim_C5 [] [] demoTable kf (by simp) rfl).2.2.2.2 (by decide)⟩

/-- C6: a constraint row referencing an absent table is silently dropped, and
duplicate constraint rows for a present table are appended twice in scan
order, without deduplication. -/
theorem claim_C6 (entities : List Table) (k : KeyRow) (l₁ l₂ : List Table) (t : Table) (k' : KeyRow)
    (habsent : ∀ u ∈ entities, u.name ≠ k.self_table)
    (h₁ : ∀ u ∈ l₁, u.name ≠ t.name) (hk' : k'.self_table = t.name) :
    addKey entities k = entities
    ∧ applyKeys (l₁ ++ t :: l₂) [k', k']
        = l₁ ++ { t with keys := t.keys ++ [keyOf k', keyOf k'] } :: l₂ := by
  refine ⟨addKey_absent entities k habsent, ?_⟩
  have h := applyKeys_found [k', k'] l₁ l₂ t h₁ (by intro x hx; simp at hx; rw [hx]; exact hk')
  simpa using h

/-- C6, witness: an orphan row dropped, a duplicated row appended twice. -/
theorem claim_C6_witness :
    addKey [demoTable] korphan = [demoTable]
    ∧ applyKeys ([] ++ demoTable :: []) [kp, kp]
        = [] ++ { demoTable with keys := demoTable.keys ++ [keyOf kp, keyOf kp] } :: [] :=
  ⟨(claim_C6 [demoTable] korphan [] [] demoTable kp (by decide) (by simp) rfl).1,
   (claim_C6 [demoTable] korphan [] [] demoTable kp (by decide) (by simp) rfl).2⟩

/-- C7: on every valid configuration whose driver connect succeeds, `test`
performs exactly one connection open and exactly one connection close,
whether the liveness statement succeeds or fails. -/
theorem claim_C7 (cfg : Option DatasourceConfiguration) (queryOutcome : Except String Unit)
    (hvalid : configError cfg = none) :
    (test cfg (Except.ok ()) queryOutcome).opens = 1
    ∧ (test cfg (Except.ok ()) queryOutcome).closes = 1 := by
  cases queryOutcome <;> simp [test, hvalid]

/-- C7, witness at a concrete valid configuration with a failing liveness
statement. -/
theorem claim_C7_witness :
    (test (some demoConfig) (Except.ok ()) (Except.error "down")).opens = 1
    ∧ (test (some demoConfig) (Except.ok ()) (Except.error "down")).closes = 1 :=
  claim_C7 (some demoConfig) (Except.error "down") rfl

/-- C8: when TLS is enabled the driver receives a TLS option set with
server-certificate verification disabled, and the CA / client certificate /
client key are attached to it exactly when self-signed mode is also selected;
when TLS is off (or no connection options exist) no TLS option set is built. -/
theorem claim_C8 (c : ConnectionOpts) :
    (c.useSsl = true → ∃ s, ssl_config (some c) = some s
       ∧ s.rejectUnauthorized = false
       ∧ ((s.ca = some c.ca ∧ s.key = some c.key ∧ s.cert = some c.cert)
            ↔ c.useSelfSignedSsl = true)
       ∧ ((s.ca = none ∧ s.key = none ∧ s.cert = none) ↔ c.useSelfSignedSsl = false))
    ∧ (c.useSsl = false → ssl_config (some c) = none)
    ∧ ssl_config none = none := by
  refine ⟨fun h => ?_, fun h => by simp [ssl_config, h], rfl⟩
  refine ⟨{ rejectUnauthorized := false
            ca := if c.useSelfSignedSsl then some c.ca else none
            key := if c.useSelfSignedSsl then some c.key else none
            cert := if c.useSelfSignedSsl then some c.cert else none },
    by simp [ssl_config, h], rfl, ?_, ?_⟩ <;>
    cases hs : c.useSelfSignedSsl <;> simp [hs]

/-- C8, witness: TLS disabled yields no option set. -/
theorem claim_C8_witness :
    ssl_config (some coptsOff) = none ∧ ssl_config none = none :=
  ⟨(claim_C8 coptsOff).2.1 rfl, (claim_C8 coptsOff).2.2⟩

/-- C9: every failure raised inside the `metadata` try block — a failing
column-catalog query, or a failing constraint-catalog query after the
connection and the first query succeeded — surfaces as an error whose message
is the connection-failure prefix followed by the original message, so it is
not distinguishable by message shape from a connection failure. -/
theorem claim_C9 (tableOutcome : Except String (List TableRow))
    (keysOutcome : Except String (List KeyRow)) (e : String)
    (h : (metadata tableOutcome keysOutcome).result = Except.error e) :
    (∃ m, e = "Failed to connect to Postgres, " ++ m)
    ∧ (∀ m, tableOutcome = Except.error m → e = "Failed to connect to Postgres, " ++ m)
    ∧ (∀ m rows, tableOutcome = Except.ok rows → keysOutcome = Except.error m →
        e = "Failed to connect to Postgres, " ++ m)
    ∧ (metadata tableOutcome keysOutcome).closes = 1 := by
  refine ⟨?_, ?_, ?_, ?_⟩
  · cases tableOutcome with
    | error m =>
      refine ⟨m, ?_⟩
      cases keysOutcome <;> simp [metadata] at h <;> exact h.symm
    | ok rows =>
      cases keysOutcome with
      | error m =>
        refine ⟨m, ?_⟩
        simp [metadata] at h
        exact h.symm
      | ok ks => simp [metadata] at h
  · intro m hm
    subst hm
    cases keysOutcome <;> simp [metadata] at h <;> exact h.symm
  · intro m rows h1 h2
    subst h1; subst h2
    simp [metadata] at h
    exact h.symm
  · cases tableOutcome <;> cases keysOutcome <;> simp [metadata]

/-- C9, witness: a catalog failure before and after a successful first query,
both carrying the connection-failure prefix. -/
theorem claim_C9_witness :
    (metadata (Except.error "timeout") (Except.ok [])).result
      = Except.error ("Failed to connect to Postgres, " ++ "timeout")
    ∧ (metadata (Except.ok []) (Except.error "bad")).result
      = Except.error ("Failed to connect to Postgres, " ++ "bad") := by
  have h1 : (metadata (Except.error "timeout") (Except.ok [])).result
      = Except.error "Failed to connect to Postgres, timeout" := rfl
  have h2 : (metadata (Except.ok []) (Except.error "bad")).result
      = Except.error "Failed to connect to Postgres, bad" := rfl
  constructor
  · rw [← (claim_C9 _ _ _ h1).2.1 "timeout" rfl]; exact h1
  · rw [← (claim_C9 _ _ _ h2).2.2.1 "bad" [] rfl rfl]; exact h2

/-! ### Claims C2, C4, C10 -/

/-- Concrete column-catalog rows used by witnesses: two tables, with a cased
non-first column on the first table. -/
def demoRows : List TableRow :=
  [ { name := "id", column_type := "int4", table_name := "orders", schema_name := "public" },
    { name := "Total", column_type := "numeric", table_name := "orders", schema_name := "public" },
    { name := "id", column_type := "int4", table_name := "users", schema_name := "public" } ]

/-- The folded form of the first table of `demoRows`. -/
def ordersTable : Table :=
  { name := "orders", type := TableType.TABLE,
    columns := [{ name := "id", type := "int4" }, { name := "\"Total\"", type := "numeric" }],
    keys := [] }

/-- C2, counterexample: the quoting rule is NOT applied to the first column of
a table. A single-row stream whose column name `Id` is cased produces a
ColumnDescriptor storing the raw, unquoted name `Id`, refuting the claim's
"regardless of whether the row is the first column of its table". -/
theorem claim_C2_counterexample :
    isColumnNameCased "Id" = true
    ∧ foldRows
        [{ name := "Id", column_type := "int4", table_name := "users", schema_name := "public" }]
      = [{ name := "users", type := TableType.TABLE,
           columns := [{ name := "Id", type := "int4" }], keys := [] }] :=
  ⟨rfl, rfl⟩

/-- C2, amended: the casing rule applies only to columns appended to an
already-existing table entry. For every folded table, the stored column names
are: the raw name for the table's first row, then — for each later row of that
table, in stream order — the name quoted when not all-lowercase and raw
otherwise. -/
theorem claim_C2 (rows : List TableRow) (t : Table) (h : t ∈ foldRows rows) :
    t.columns.map Column.name
      = storedNames (rows.filter (fun r => r.table_name == t.name)) := by
  rw [foldRows_columns rows t h]
  cases hf : rows.filter (fun r => r.table_name == t.name) with
  | nil => simp [columnsFor, hf, storedNames]
  | cons r rs => simp [columnsFor, hf, storedNames, laterColumn]

/-- C2, witness: on `demoRows`, the `orders` table stores `id` raw (first,
lowercase) and `Total` quoted (later, cased). -/
theorem claim_C2_witness :
    ordersTable.columns.map Column.name
      = storedNames (demoRows.filter (fun r => r.table_name == ordersTable.name)) :=
  claim_C2 demoRows ordersTable (by decide)

/-- C4: folding N rows spanning K distinct table names yields exactly K Table
entries (K = the number of distinct `table_name`s); the result's name sequence
is the first-appearance sequence of the stream's table names; and each table's
column list consists of exactly the rows of that table, in stream order. -/
theorem claim_C4 (rows : List TableRow) :
    (foldRows rows).map Table.name = firstSeen rows
    ∧ (foldRows rows).length = (rows.map TableRow.table_name).toFinset.card
    ∧ ∀ t ∈ foldRows rows, t.columns = columnsFor t.name rows :=
  ⟨foldl_names rows [], length_foldRows rows, fun t ht => foldRows_columns rows t ht⟩

/-- C4, witness on a concrete stream. -/
theorem claim_C4_witness :
    (foldRows demoRows).map Table.name = firstSeen demoRows
    ∧ (foldRows demoRows).length = (demoRows.map TableRow.table_name).toFinset.card
    ∧ ordersTable.columns = columnsFor ordersTable.name demoRows :=
  ⟨(claim_C4 demoRows).1, (claim_C4 demoRows).2.1,
   (claim_C4 demoRows).2.2 ordersTable (by decide)⟩

/-- The fold step never inspects `schema_name`. -/
theorem foldStep_reschema (acc : List Table) (r : TableRow) (s : String) :
    foldStep acc { r with schema_name := s } = foldStep acc r := by
  cases r
  rfl

/-- C10: the fold keys tables by `table_name` alone and ignores the
`schema_name` column — rewriting every row's schema arbitrarily leaves the
result unchanged, the number of tables equals the number of distinct table
names (schemas never split a table), and concretely two same-named tables
from different schemas are merged into one Table entry with both columns. -/
theorem claim_C10 (rows : List TableRow) (f : TableRow → String) :
    foldRows (rows.map (fun r => { r with schema_name := f r })) = foldRows rows
    ∧ (foldRows rows).length = (rows.map TableRow.table_name).toFinset.card
    ∧ foldRows
        [{ name := "x", column_type := "int4", table_name := "t", schema_name := "public" },
         { name := "y", column_type := "text", table_name := "t", schema_name := "audit" }]
      = [{ name := "t", type := TableType.TABLE,
           columns := [{ name := "x", type := "int4" }, { name := "y", type := "text" }],
           keys := [] }] := by
  refine ⟨?_, length_foldRows rows, by rfl⟩
  have main : ∀ (rs : List TableRow) (acc : List Table),
      (rs.map (fun r => { r with schema_name := f r })).foldl foldStep acc
        = rs.foldl foldStep acc := by
    intro rs
    induction rs with
    | nil => intro acc; rfl
    | cons r rs ih =>
      intro acc
      simp only [List.map_cons, List.foldl_cons, foldStep_reschema]
      exact ih _
  exact main rows []

end Postgres
